import Mathlib

/-!
Verification of the NEC-protocol AC controller (`whatever.py`).

The embedding below mirrors the source line by line:

* `send_nec_command_pulses` is the pulse list built by
  `ACController.send_nec_command` (lines 57-85): header, 8 address bits,
  8 inverted-address bits, 8 command bits, 8 inverted-command bits, stop mark.
  Python's `(byte >> i) & 1` is `necBit`, and the conditional expression
  `one_space if bit else zero_space` is the `if necBit b i ≠ 0` term
  (Python truthiness: any non-zero value selects the first branch).
* `send_nec_command_trace` models the hardware effects of lines 87-90
  (`hardware_PWM` on, `send_raw_code`, `hardware_PWM` off) as straight-line
  statements where an exception aborts the remainder of the body.
* `power_on_frame` / `power_off_frame` are the frames transmitted by
  `power_on` / `power_off` (lines 92-100).
* `set_temperature`, `set_mode`, `set_fan_speed` return the
  (address, command) pair handed to `send_nec_command`, or `none` when the
  Python function prints a message and returns without transmitting
  (lines 102-159).  `pyLower` models Python's `str.lower` (ASCII case
  mapping, which is exact for the table keys involved).
* `decodePairs` / `decodeByteAt` implement the receiver-side view used by the
  specification: reading the space duration of each (mark, space) pair
  LSB-first, classifying a 1690 µs space as bit 1 and anything else as bit 0.
-/

set_option maxRecDepth 8192

def header_mark : Nat := 9000

def header_space : Nat := 4500

def bit_mark : Nat := 560

def one_space : Nat := 1690

def zero_space : Nat := 560

/-- Python `(b >> i) & 1`: bit `i` of `b`. -/
def necBit (b i : Nat) : Nat := (b >>> i) &&& 1

/-- The 16 pulses appended by `for i in range(8): append(bit_mark);
append(one_space if (b >> i) & 1 else zero_space)` (source lines 67-69
and 76-78). -/
def directBits (b : Nat) : List Nat :=
  (List.range 8).flatMap fun i =>
    [bit_mark, if necBit b i ≠ 0 then one_space else zero_space]

/-- The 16 pulses appended by the inverted-byte loops (source lines 71-73
and 80-82): `zero_space if (b >> i) & 1 else one_space`. -/
def invertedBits (b : Nat) : List Nat :=
  (List.range 8).flatMap fun i =>
    [bit_mark, if necBit b i ≠ 0 then zero_space else one_space]

/-- The complete pulse list built by `send_nec_command` (source lines 57-85). -/
def send_nec_command_pulses (address command : Nat) : List Nat :=
  [header_mark, header_space]
    ++ (directBits address ++ (invertedBits address
    ++ (directBits command ++ (invertedBits command
    ++ [bit_mark]))))

/-- Receiver-side decoding of `k` (mark, space) pulse pairs, LSB-first:
a 1690 µs space is bit 1, any other space is bit 0. -/
def decodePairs : Nat → List Nat → Nat
  | 0, _ => 0
  | _ + 1, [] => 0
  | _ + 1, [_] => 0
  | k + 1, _ :: sp :: rest =>
      (if sp = one_space then 1 else 0) + 2 * decodePairs k rest

/-- Decode the 8-bit field whose first mark sits at 0-based index `s` of the
pulse list. -/
def decodeByteAt (pulses : List Nat) (s : Nat) : Nat :=
  decodePairs 8 (pulses.drop s)

/-- Hardware calls issued by the transmission part of `send_nec_command`
(source lines 87-90). -/
inductive HwAction where
  | pwmOn : HwAction
  | sendRaw : List Nat → HwAction
  | pwmOff : HwAction
deriving DecidableEq

/-- Effect trace of `send_nec_command`'s body (source lines 87-90), which is
three straight-line statements with no `try`/`finally`:

    self.pi.hardware_PWM(self.gpio_pin, self.carrier_freq, 500000)
    self.send_raw_code(pulses)
    self.pi.hardware_PWM(self.gpio_pin, 0, 0)

`pwmOnFails` / `sendFails` say whether the first or second call raises; an
exception skips every following statement.  The result is the list of
hardware calls that completed plus whether an exception propagated. -/
def send_nec_command_trace (address command : Nat)
    (pwmOnFails sendFails : Bool) : List HwAction × Bool :=
  if pwmOnFails then ([], true)
  else if sendFails then ([HwAction.pwmOn], true)
  else ([HwAction.pwmOn,
         HwAction.sendRaw (send_nec_command_pulses address command),
         HwAction.pwmOff], false)

/-- Frame transmitted by `power_on` (source line 95): address 0x00,
command 0x08. -/
def power_on_frame : List Nat := send_nec_command_pulses 0x00 0x08

/-- Frame transmitted by `power_off` (source line 100): address 0x00,
command 0x09. -/
def power_off_frame : List Nat := send_nec_command_pulses 0x00 0x09

/-- `set_temperature` (source lines 102-116): `none` when the guard
`not 16 <= temp <= 30` makes the function return without transmitting,
otherwise the (address, command) pair `(0x00, 0x10 + (temp - 16))` handed to
`send_nec_command`. -/
def set_temperature (temp : Int) : Option (Nat × Nat) :=
  if 16 ≤ temp ∧ temp ≤ 30 then some (0x00, (0x10 + (temp - 16)).toNat)
  else none

/-- Python `str.lower` for the ASCII strings involved here: lowercase each
character. -/
def pyLower (s : String) : String := ⟨s.data.map Char.toLower⟩

/-- The `modes` dict of `set_mode` (source lines 125-131), in insertion
order. -/
def modes : List (String × Nat) :=
  [("cool", 0x30), ("heat", 0x31), ("fan", 0x32), ("dry", 0x33),
   ("auto", 0x34)]

/-- The `speeds` dict of `set_fan_speed` (source lines 147-152). -/
def speeds : List (String × Nat) :=
  [("low", 0x40), ("medium", 0x41), ("high", 0x42), ("auto", 0x43)]

/-- `set_mode` (source lines 118-138): `none` when `mode.lower()` is not a
key of `modes` (print and return, nothing transmitted), otherwise the pair
`(0x00, modes[mode.lower()])` handed to `send_nec_command`. -/
def set_mode (mode : String) : Option (Nat × Nat) :=
  match modes.lookup (pyLower mode) with
  | some v => some (0x00, v)
  | none => none

/-- `set_fan_speed` (source lines 140-159), same shape as `set_mode`. -/
def set_fan_speed (speed : String) : Option (Nat × Nat) :=
  match speeds.lookup (pyLower speed) with
  | some v => some (0x00, v)
  | none => none

lemma necBit_eq (a i : Nat) : necBit a i = a / 2 ^ i % 2 := by
  simp [necBit, Nat.shiftRight_eq_div_pow, Nat.and_one_is_mod]

lemma range8 : List.range 8 = [0, 1, 2, 3, 4, 5, 6, 7] := by decide

lemma directBits_eq (b : Nat) : directBits b =
    [bit_mark, if necBit b 0 ≠ 0 then one_space else zero_space,
     bit_mark, if necBit b 1 ≠ 0 then one_space else zero_space,
     bit_mark, if necBit b 2 ≠ 0 then one_space else zero_space,
     bit_mark, if necBit b 3 ≠ 0 then one_space else zero_space,
     bit_mark, if necBit b 4 ≠ 0 then one_space else zero_space,
     bit_mark, if necBit b 5 ≠ 0 then one_space else zero_space,
     bit_mark, if necBit b 6 ≠ 0 then one_space else zero_space,
     bit_mark, if necBit b 7 ≠ 0 then one_space else zero_space] := by
  simp [directBits, range8]

lemma invertedBits_eq (b : Nat) : invertedBits b =
    [bit_mark, if necBit b 0 ≠ 0 then zero_space else one_space,
     bit_mark, if necBit b 1 ≠ 0 then zero_space else one_space,
     bit_mark, if necBit b 2 ≠ 0 then zero_space else one_space,
     bit_mark, if necBit b 3 ≠ 0 then zero_space else one_space,
     bit_mark, if necBit b 4 ≠ 0 then zero_space else one_space,
     bit_mark, if necBit b 5 ≠ 0 then zero_space else one_space,
     bit_mark, if necBit b 6 ≠ 0 then zero_space else one_space,
     bit_mark, if necBit b 7 ≠ 0 then zero_space else one_space] := by
  simp [invertedBits, range8]

lemma if_bit_one (P : Prop) [Decidable P] :
    (if (if P then one_space else zero_space) = one_space then (1 : Nat)
     else 0) = if P then 1 else 0 := by
  split <;> simp [one_space, zero_space]

lemma if_bit_inv (P : Prop) [Decidable P] :
    (if (if P then zero_space else one_space) = one_space then (1 : Nat)
     else 0) = if P then 0 else 1 := by
  split <;> simp [one_space, zero_space]

lemma if_necBit (a i : Nat) :
    (if necBit a i ≠ 0 then (1 : Nat) else 0) = a / 2 ^ i % 2 := by
  rw [← necBit_eq]
  by_cases h : necBit a i = 0
  · simp [h]
  · have h2 : necBit a i ≤ 1 := by rw [necBit_eq]; omega
    simp [h]; omega

lemma if_necBit_add (a i : Nat) :
    (if necBit a i ≠ 0 then (0 : Nat) else 1) + a / 2 ^ i % 2 = 1 := by
  by_cases h : necBit a i = 0
  · rw [necBit_eq] at h
    simp [necBit_eq, h]
  · have h2 : necBit a i ≤ 1 := by rw [necBit_eq]; omega
    simp [h]
    rw [necBit_eq] at h h2
    omega

lemma decode_directBits (b : Nat) (rest : List Nat) :
    decodePairs 8 (directBits b ++ rest) = b % 256 := by
  rw [directBits_eq]
  simp only [List.cons_append, decodePairs, if_bit_one, if_necBit]
  omega

lemma decode_invertedBits (b : Nat) (rest : List Nat) :
    decodePairs 8 (invertedBits b ++ rest) = 255 - b % 256 := by
  rw [invertedBits_eq]
  simp only [List.cons_append, decodePairs, if_bit_inv]
  have g0 := if_necBit_add b 0
  have g1 := if_necBit_add b 1
  have g2 := if_necBit_add b 2
  have g3 := if_necBit_add b 3
  have g4 := if_necBit_add b 4
  have g5 := if_necBit_add b 5
  have g6 := if_necBit_add b 6
  have g7 := if_necBit_add b 7
  generalize (if necBit b 0 ≠ 0 then (0 : Nat) else 1) = y0 at g0 ⊢
  generalize (if necBit b 1 ≠ 0 then (0 : Nat) else 1) = y1 at g1 ⊢
  generalize (if necBit b 2 ≠ 0 then (0 : Nat) else 1) = y2 at g2 ⊢
  generalize (if necBit b 3 ≠ 0 then (0 : Nat) else 1) = y3 at g3 ⊢
  generalize (if necBit b 4 ≠ 0 then (0 : Nat) else 1) = y4 at g4 ⊢
  generalize (if necBit b 5 ≠ 0 then (0 : Nat) else 1) = y5 at g5 ⊢
  generalize (if necBit b 6 ≠ 0 then (0 : Nat) else 1) = y6 at g6 ⊢
  generalize (if necBit b 7 ≠ 0 then (0 : Nat) else 1) = y7 at g7 ⊢
  omega

lemma xor_255_of_lt (a : Nat) (h : a < 256) : a ^^^ 255 = 255 - a := by
  revert h; revert a; decide

lemma necBit_mod_256 (b i : Nat) (h : i < 8) :
    necBit (b % 256) i = necBit b i := by
  rw [necBit_eq, necBit_eq]
  interval_cases i <;> omega

lemma frame_drop_2 (a c : Nat) : (send_nec_command_pulses a c).drop 2
    = directBits a ++ (invertedBits a
      ++ (directBits c ++ (invertedBits c ++ [bit_mark]))) := by
  rw [send_nec_command_pulses]
  rfl

lemma frame_drop_18 (a c : Nat) : (send_nec_command_pulses a c).drop 18
    = invertedBits a ++ (directBits c ++ (invertedBits c ++ [bit_mark])) := by
  rw [send_nec_command_pulses, directBits_eq a]
  rfl

lemma frame_drop_34 (a c : Nat) : (send_nec_command_pulses a c).drop 34
    = directBits c ++ (invertedBits c ++ [bit_mark]) := by
  rw [send_nec_command_pulses, directBits_eq a, invertedBits_eq a]
  rfl

lemma frame_drop_50 (a c : Nat) : (send_nec_command_pulses a c).drop 50
    = invertedBits c ++ [bit_mark] := by
  rw [send_nec_command_pulses, directBits_eq a, invertedBits_eq a,
    directBits_eq c]
  rfl

/-- C3: for every (address, command) pair the pulse sequence built by
`send_nec_command` has exactly 67 entries: 2 header entries, 32 bits of
2 entries each, and 1 stop entry. -/
theorem nec_frame_length_67 (a c : Nat) :
    (send_nec_command_pulses a c).length = 67 := by
  rw [send_nec_command_pulses, directBits_eq a, invertedBits_eq a,
    directBits_eq c, invertedBits_eq c]
  rfl

/-- C4: the frame always starts with the 9000 µs header mark and 4500 µs
header space, and its last entry is the 560 µs stop mark. -/
theorem nec_frame_header_and_stop (a c : Nat) :
    (send_nec_command_pulses a c).getD 0 0 = 9000 ∧
    (send_nec_command_pulses a c).getD 1 0 = 4500 ∧
    (send_nec_command_pulses a c).getD 66 0 = 560 ∧
    (send_nec_command_pulses a c).getLast? = some 560 := by
  rw [send_nec_command_pulses, directBits_eq a, invertedBits_eq a,
    directBits_eq c, invertedBits_eq c]
  refine ⟨rfl, rfl, rfl, rfl⟩

/-- C1: the inverted-address section (1-based frame entries 19-34, i.e.
0-based 18-33) and inverted-command section (1-based 51-66, 0-based 50-65)
carry exactly the one's-complement of the corresponding byte: the space of
bit `i` is 560 µs when bit `i` of the original byte is 1 and 1690 µs when it
is 0, so decoding each section LSB-first reconstructs `(~b) & 0xFF`
(`b ^^^ 255`). -/
theorem nec_inverted_sections_complement (a c : Nat)
    (ha : a < 256) (hc : c < 256) :
    decodeByteAt (send_nec_command_pulses a c) 18 = a ^^^ 0xFF ∧
    decodeByteAt (send_nec_command_pulses a c) 50 = c ^^^ 0xFF ∧
    (∀ i : Fin 8, (send_nec_command_pulses a c).getD (19 + 2 * i.val) 0 =
      if necBit a i.val ≠ 0 then 560 else 1690) ∧
    (∀ i : Fin 8, (send_nec_command_pulses a c).getD (51 + 2 * i.val) 0 =
      if necBit c i.val ≠ 0 then 560 else 1690) := by
  refine ⟨?_, ?_, ?_, ?_⟩
  · rw [decodeByteAt, frame_drop_18, decode_invertedBits,
      xor_255_of_lt a ha, Nat.mod_eq_of_lt ha]
  · rw [decodeByteAt, frame_drop_50, decode_invertedBits,
      xor_255_of_lt c hc, Nat.mod_eq_of_lt hc]
  · intro i
    fin_cases i <;>
      (rw [send_nec_command_pulses, directBits_eq a, invertedBits_eq a]; rfl)
  · intro i
    fin_cases i <;>
      (rw [send_nec_command_pulses, directBits_eq a, invertedBits_eq a,
        directBits_eq c, invertedBits_eq c]; rfl)

/-- Witness for C1 at address 0xA5, command 0x3C: the inverted sections
decode to 0x5A and 0xC3. -/
theorem nec_inverted_sections_complement_witness :
    decodeByteAt (send_nec_command_pulses 0xA5 0x3C) 18 = 0x5A ∧
    decodeByteAt (send_nec_command_pulses 0xA5 0x3C) 50 = 0xC3 := by
  have h := nec_inverted_sections_complement 0xA5 0x3C (by decide) (by decide)
  exact ⟨h.1.trans (by decide), h.2.1.trans (by decide)⟩

/-- C2: every one of the four byte fields (address, inverted address,
command, inverted command) is encoded LSB-first and order-preserving: bit
`i` of the byte occupies the pulse pair at 0-based indices (2 + 2i, 3 + 2i)
for the address, (18 + 2i, 19 + 2i) for the inverted address,
(34 + 2i, 35 + 2i) for the command and (50 + 2i, 51 + 2i) for the inverted
command, each pair being (560, 1690) for an encoded 1 bit and (560, 560)
for an encoded 0 bit (the inverted sections encode the flipped bit);
concretely the first address-bit pair is (560, 1690) for address 0x01 and
(560, 560) for address 0x80. -/
theorem nec_encoding_lsb_first (a c : Nat) :
    (∀ i : Fin 8,
      (send_nec_command_pulses a c).getD (2 + 2 * i.val) 0 = 560 ∧
      (send_nec_command_pulses a c).getD (3 + 2 * i.val) 0 =
        (if necBit a i.val ≠ 0 then 1690 else 560) ∧
      (send_nec_command_pulses a c).getD (18 + 2 * i.val) 0 = 560 ∧
      (send_nec_command_pulses a c).getD (19 + 2 * i.val) 0 =
        (if necBit a i.val ≠ 0 then 560 else 1690) ∧
      (send_nec_command_pulses a c).getD (34 + 2 * i.val) 0 = 560 ∧
      (send_nec_command_pulses a c).getD (35 + 2 * i.val) 0 =
        (if necBit c i.val ≠ 0 then 1690 else 560) ∧
      (send_nec_command_pulses a c).getD (50 + 2 * i.val) 0 = 560 ∧
      (send_nec_command_pulses a c).getD (51 + 2 * i.val) 0 =
        (if necBit c i.val ≠ 0 then 560 else 1690)) ∧
    ((send_nec_command_pulses 0x01 c).getD 2 0,
      (send_nec_command_pulses 0x01 c).getD 3 0) = (560, 1690) ∧
    ((send_nec_command_pulses 0x80 c).getD 2 0,
      (send_nec_command_pulses 0x80 c).getD 3 0) = (560, 560) := by
  refine ⟨?_, ?_, ?_⟩
  · intro i
    fin_cases i <;>
      (refine ⟨?_, ?_, ?_, ?_, ?_, ?_, ?_, ?_⟩ <;>
        (rw [send_nec_command_pulses, directBits_eq a, invertedBits_eq a,
          directBits_eq c, invertedBits_eq c]; rfl))
  · rw [send_nec_command_pulses, directBits_eq 0x01]
    rfl
  · rw [send_nec_command_pulses, directBits_eq 0x80]
    rfl

/-- C10: the frame depends only on the low 8 bits of each input: for all
naturals the pulse list equals the one for `a % 256` and `c % 256`, the
encoder is total (no rejection of out-of-range values), and the result still
has 67 entries. -/
theorem nec_frame_depends_on_low_byte (a c : Nat) :
    send_nec_command_pulses a c
      = send_nec_command_pulses (a % 256) (c % 256) ∧
    (send_nec_command_pulses a c).length = 67 := by
  have hdir : ∀ b : Nat, directBits (b % 256) = directBits b := by
    intro b
    rw [directBits_eq, directBits_eq,
      necBit_mod_256 b 0 (by omega), necBit_mod_256 b 1 (by omega),
      necBit_mod_256 b 2 (by omega), necBit_mod_256 b 3 (by omega),
      necBit_mod_256 b 4 (by omega), necBit_mod_256 b 5 (by omega),
      necBit_mod_256 b 6 (by omega), necBit_mod_256 b 7 (by omega)]
  have hinv : ∀ b : Nat, invertedBits (b % 256) = invertedBits b := by
    intro b
    rw [invertedBits_eq, invertedBits_eq,
      necBit_mod_256 b 0 (by omega), necBit_mod_256 b 1 (by omega),
      necBit_mod_256 b 2 (by omega), necBit_mod_256 b 3 (by omega),
      necBit_mod_256 b 4 (by omega), necBit_mod_256 b 5 (by omega),
      necBit_mod_256 b 6 (by omega), necBit_mod_256 b 7 (by omega)]
  constructor
  · rw [send_nec_command_pulses, send_nec_command_pulses,
      hdir a, hinv a, hdir c, hinv c]
  · rw [send_nec_command_pulses, directBits_eq a, invertedBits_eq a,
      directBits_eq c, invertedBits_eq c]
    rfl

lemma mode_key_fixed (s : String) (v : Nat)
    (h : modes.lookup s = some v) : pyLower s = s := by
  simp only [modes, List.lookup] at h
  repeat' split at h
  all_goals simp_all [beq_iff_eq]
  all_goals subst_eqs
  all_goals decide

lemma speed_key_fixed (s : String) (v : Nat)
    (h : speeds.lookup s = some v) : pyLower s = s := by
  simp only [speeds, List.lookup] at h
  repeat' split at h
  all_goals simp_all [beq_iff_eq]
  all_goals subst_eqs
  all_goals decide

/-- C5: `set_temperature` transmits nothing exactly when the temperature is
below 16 or above 30 (the guard fires before any frame is built), and
otherwise hands `send_nec_command` the pair (0x00, 0x10 + (temp - 16)); in
particular 16 maps to command 0x10 and 30 to 0x1E. -/
theorem set_temperature_range_check (t : Int) :
    (set_temperature t = none ↔ (t < 16 ∨ 30 < t)) ∧
    (16 ≤ t → t ≤ 30 →
      set_temperature t = some (0x00, (0x10 + (t - 16)).toNat)) ∧
    set_temperature 16 = some (0x00, 0x10) ∧
    set_temperature 30 = some (0x00, 0x1E) := by
  refine ⟨?_, ?_, by decide, by decide⟩
  · by_cases h : 16 ≤ t ∧ t ≤ 30
    · simp [set_temperature, h]
      try omega
    · simp [set_temperature, h]
      try omega
  · intro h1 h2
    simp [set_temperature, h1, h2]

/-- Witness for C5: temperature 20 encodes as command 0x14, and 15 / 31 are
rejected without building a frame. -/
theorem set_temperature_range_check_witness :
    set_temperature 20 = some (0x00, 0x14) ∧
    set_temperature 15 = none ∧ set_temperature 31 = none := by
  refine ⟨?_, ?_, ?_⟩
  · exact ((set_temperature_range_check 20).2.1 (by decide)
      (by decide)).trans (by decide)
  · exact (set_temperature_range_check 15).1.mpr (by decide)
  · exact (set_temperature_range_check 31).1.mpr (by decide)

/-- C6 counterexample: when `send_raw_code` raises (transmission failure
after the carrier was activated), the body of `send_nec_command` performs no
carrier-off call before the exception propagates — there is no
`try`/`finally` around source lines 88-90, so the claim that carrier
deactivation is attempted on every exit path is false at address 0x00,
command 0x08 with a failing transmission. -/
theorem carrier_off_skipped_on_failure :
    (send_nec_command_trace 0x00 0x08 false true).2 = true ∧
    HwAction.pwmOff ∉ (send_nec_command_trace 0x00 0x08 false true).1 ∧
    HwAction.pwmOn ∈ (send_nec_command_trace 0x00 0x08 false true).1 := by
  decide

/-- C6 amended: the carrier-off call happens exactly on the success path; if
carrier activation or pulse transmission raises, the error propagates with
no deactivation attempt, so a transmission failure leaves the carrier
active. -/
theorem carrier_off_only_on_success (a c : Nat) (pwmOnFails sendFails : Bool) :
    (HwAction.pwmOff ∈ (send_nec_command_trace a c pwmOnFails sendFails).1
      ↔ (send_nec_command_trace a c pwmOnFails sendFails).2 = false) ∧
    ((send_nec_command_trace a c pwmOnFails sendFails).2 = false →
      (send_nec_command_trace a c pwmOnFails sendFails).1
        = [HwAction.pwmOn,
           HwAction.sendRaw (send_nec_command_pulses a c),
           HwAction.pwmOff]) := by
  cases pwmOnFails <;> cases sendFails <;>
    simp [send_nec_command_trace]

/-- Witness for C6's amended theorem at concrete inputs. -/
theorem carrier_off_only_on_success_witness :
    (send_nec_command_trace 0x00 0x08 false false).1
      = [HwAction.pwmOn,
         HwAction.sendRaw (send_nec_command_pulses 0x00 0x08),
         HwAction.pwmOff] :=
  (carrier_off_only_on_success 0x00 0x08 false false).2 rfl

/-- C7: a mode or fan-speed string whose lowercase form is not a key of the
respective table makes `set_mode` / `set_fan_speed` return without looking
up a command byte or transmitting anything. -/
theorem unknown_enum_value_rejected (s : String) :
    (modes.lookup (pyLower s) = none → set_mode s = none) ∧
    (speeds.lookup (pyLower s) = none → set_fan_speed s = none) := by
  constructor
  · intro h
    simp [set_mode, h]
  · intro h
    simp [set_fan_speed, h]

/-- Witness for C7: the typo string "warm" is rejected by both functions. -/
theorem unknown_enum_value_rejected_witness :
    set_mode "warm" = none ∧ set_fan_speed "warm" = none :=
  ⟨(unknown_enum_value_rejected "warm").1 (by decide),
   (unknown_enum_value_rejected "warm").2 (by decide)⟩

/-- C8: `power_on` transmits the NEC frame whose decoded address byte is
0x00 and decoded command byte is 0x08, and `power_off` the frame decoding to
address 0x00, command 0x09. -/
theorem power_commands_encode :
    decodeByteAt power_on_frame 2 = 0x00 ∧
    decodeByteAt power_on_frame 34 = 0x08 ∧
    decodeByteAt power_off_frame 2 = 0x00 ∧
    decodeByteAt power_off_frame 34 = 0x09 := by
  decide

/-- C9: mode and fan-speed lookup is case-insensitive: whenever the
lowercased input is a key of the table, the original string is accepted and
encodes exactly the command byte of its lowercase form; concretely "COOL"
and "Cool" encode like "cool" and "HIGH" like "high". -/
theorem mode_speed_case_insensitive (s : String) :
    (∀ v, modes.lookup (pyLower s) = some v →
      set_mode s = some (0x00, v) ∧ set_mode (pyLower s) = some (0x00, v)) ∧
    (∀ v, speeds.lookup (pyLower s) = some v →
      set_fan_speed s = some (0x00, v) ∧
        set_fan_speed (pyLower s) = some (0x00, v)) ∧
    set_mode "COOL" = set_mode "cool" ∧
    set_mode "Cool" = set_mode "cool" ∧
    set_fan_speed "HIGH" = set_fan_speed "high" := by
  refine ⟨?_, ?_, by decide, by decide, by decide⟩
  · intro v h
    have hfix : pyLower (pyLower s) = pyLower s := mode_key_fixed (pyLower s) v h
    constructor
    · simp [set_mode, h]
    · simp [set_mode, hfix, h]
  · intro v h
    have hfix : pyLower (pyLower s) = pyLower s := speed_key_fixed (pyLower s) v h
    constructor
    · simp [set_fan_speed, h]
    · simp [set_fan_speed, hfix, h]

/-- Witness for C9: "HEAT" encodes mode command 0x31 exactly like "heat". -/
theorem mode_speed_case_insensitive_witness :
    set_mode "HEAT" = some (0x00, 0x31) ∧ set_mode "heat" = some (0x00, 0x31) := by
  have h := (mode_speed_case_insensitive "HEAT").1 0x31 (by decide)
  exact ⟨h.1, (by decide : pyLower "HEAT" = "heat") ▸ h.2⟩
